import Mathlib

/-!
# Verification of the GeneralizIT variance-decomposition engine

Shallow embedding of the core of `generalizit/design.py` (class `Design`):
the FacetAlgebra (`variance_tuple_dictionary`), the tau/delta/Delta facet
search used by the G-coefficient engine, the variance-coefficient matrix,
the T-value computation, the levels-coefficient matrix, the confidence
interval driver, and the mutable-state behaviour of `g_coeffs`.

Python dictionaries are embedded as association lists (`List (String × _)`)
preserving insertion order; pandas data frames as lists of rows; floats as
rationals (the claims under study are structural/algebraic, not about
floating-point rounding); raised exceptions as `Except`.
-/

namespace GeneralizIT

/-- The FacetAlgebra: `variance_tuple_dictionary`, a mapping from variance
component name to the tuple of its constituent facet names, embedded as an
association list in dictionary insertion order. -/
abbrev FacetAlgebra := List (String × List String)

/-- The keys (component names) of a FacetAlgebra, in insertion order. -/
def algKeys (d : FacetAlgebra) : List String := d.map Prod.fst

/-! ## Tau facets (`Design._get_tau_facets`) -/

/-- The set of frozensets produced by
`{frozenset(combo) for combo in combinations(tup, i)}`:
itertools.combinations of a list are exactly its length-`i` sublists. -/
def combosOfLen (tup : List String) (i : Nat) : List (Finset String) :=
  (tup.sublistsLen i).map List.toFinset

/-- The inner double loop of `Design._get_tau_facets`:
`for i in range(len(tup)-1, 0, -1)` scanning the variance dictionary for
keys whose tuple has length `i` and whose frozenset is an `i`-element
combination of the facet-of-differentiation tuple.  `tauLoop d fdTup n`
covers `i = n, n-1, ..., 1`. -/
def tauLoop (d : FacetAlgebra) (fdTup : List String) : Nat → List String
  | 0 => []
  | n + 1 =>
      (d.filterMap fun kv =>
        if kv.2.length = n + 1 ∧ kv.2.toFinset ∈ combosOfLen fdTup (n + 1) then
          some kv.1
        else none) ++ tauLoop d fdTup n

/-- `Design._get_tau_facets`: the facet of differentiation itself, plus —
when its tuple has more than one element — every component whose tuple is a
lower-order combination of the tuple. -/
def get_tau_facets (fd : String) (fdTup : List String) (d : FacetAlgebra) :
    List String :=
  fd :: (if 1 < fdTup.length then tauLoop d fdTup (fdTup.length - 1) else [])

/-- `Design._calculate_tau`: `df.loc[tau_facets, 'Variance'].sum()`. -/
def calculate_tau (variance : String → ℚ) (tau_facets : List String) : ℚ :=
  (tau_facets.map variance).sum

/-! ## Big Delta facets (`Design._get_big_delta_facets`) -/

/-- `Design._get_big_delta_facets`: every key of the variance dictionary not
among the tau facets. -/
def get_big_delta_facets (tau_facets : List String) (d : FacetAlgebra) :
    List String :=
  (algKeys d).filter (fun k => ¬ k ∈ tau_facets)

/-- `Design._calculate_big_delta`: sum of `variance * levels_df.loc[fd, facet]`
over the big-Delta facets (`levels_df` stores inverse levels). -/
def calculate_big_delta (variance : String → ℚ) (levels : String → String → ℚ)
    (fd : String) (big_delta_facets : List String) : ℚ :=
  (big_delta_facets.map (fun f => variance f * levels fd f)).sum

/-! ## Little delta facets (`Design._get_little_delta_facets`) -/

/-- `Design._get_little_delta_facets`: skip the mean, the facet of
differentiation, anything of strictly smaller arity, and anything in the tau
facets; keep whatever shares at least one facet with the differentiation
tuple. -/
def get_little_delta_facets (tau_facets : List String) (fd : String)
    (fdTup : List String) (d : FacetAlgebra) : List String :=
  d.filterMap fun kv =>
    if kv.1 = "mean" ∨ kv.1 = fd ∨ kv.2.length < fdTup.length ∨
        kv.1 ∈ tau_facets then
      none
    else if fdTup.any (fun f => f ∈ kv.2) then some kv.1
    else none

/-- `Design._calculate_little_delta`: sum of
`variance * levels_df.loc[fd, facet]` over the little-delta facets. -/
def calculate_little_delta (variance : String → ℚ)
    (levels : String → String → ℚ) (fd : String)
    (little_delta_facets : List String) : ℚ :=
  (little_delta_facets.map (fun f => variance f * levels fd f)).sum

/-- `Design._calculate_phi_squared` (numeric core, prints elided):
`tau / (tau + Delta)` with the tau and Delta facet searches inlined. -/
def calculate_phi_squared (variance : String → ℚ)
    (levels : String → String → ℚ) (fd : String) (fdTup : List String)
    (d : FacetAlgebra) : ℚ :=
  let tau_facets := get_tau_facets fd fdTup d
  let tau := calculate_tau variance tau_facets
  let Delta_facets := get_big_delta_facets tau_facets d
  let Delta := calculate_big_delta variance levels fd Delta_facets
  tau / (tau + Delta)

/-- `Design._calculate_rho_squared` (numeric core, prints elided):
`tau / (tau + delta)` with the tau and little-delta facet searches inlined. -/
def calculate_rho_squared (variance : String → ℚ)
    (levels : String → String → ℚ) (fd : String) (fdTup : List String)
    (d : FacetAlgebra) : ℚ :=
  let tau_facets := get_tau_facets fd fdTup d
  let tau := calculate_tau variance tau_facets
  let little_delta_facets := get_little_delta_facets tau_facets fd fdTup d
  let delta := calculate_little_delta variance levels fd little_delta_facets
  tau / (tau + delta)

/-! ## Generic list-sum helpers -/

/-- Summing a function over a `filterMap` that keeps `k a` when `p a` holds is
summing the guarded contribution over the whole list. -/
theorem sum_map_filterMap_ite {α β M : Type*} [AddCommMonoid M]
    (d : List α) (p : α → Prop) [DecidablePred p] (k : α → β) (v : β → M) :
    ((d.filterMap fun a => if p a then some (k a) else none).map v).sum =
      (d.map fun a => if p a then v (k a) else 0).sum := by
  induction d with
  | nil => rfl
  | cons a d ih =>
    by_cases h : p a <;> simp [List.filterMap_cons, h, ih]

/-- Summing a function over a `filter` is summing the guarded contribution
over the whole list. -/
theorem sum_map_filter_ite {α M : Type*} [AddCommMonoid M]
    (d : List α) (p : α → Prop) [DecidablePred p] (v : α → M) :
    ((d.filter fun a => decide (p a)).map v).sum =
      (d.map fun a => if p a then v a else 0).sum := by
  induction d with
  | nil => rfl
  | cons a d ih =>
    by_cases h : p a <;> simp [List.filter_cons, h, ih]

/-- Summing the constant zero function gives zero. -/
theorem sum_map_zero {α M : Type*} [AddCommMonoid M] (d : List α) :
    (d.map fun _ => (0 : M)).sum = 0 := by
  induction d <;> simp_all

/-! ## Characterisation of the tau facet search -/

/-- A frozenset is among the `i`-element combinations of a duplicate-free
tuple exactly when it is a subset of the tuple's facet set of cardinality
`i`. -/
theorem mem_combosOfLen {tup : List String} (h : tup.Nodup) {i : Nat}
    (S : Finset String) :
    S ∈ combosOfLen tup i ↔ S ⊆ tup.toFinset ∧ S.card = i := by
  unfold combosOfLen
  simp only [List.mem_map, List.mem_sublistsLen]
  constructor
  · rintro ⟨l, ⟨hsub, hlen⟩, rfl⟩
    have hnd : l.Nodup := hsub.nodup h
    refine ⟨?_, by rw [List.toFinset_card_of_nodup hnd, hlen]⟩
    intro x hx
    rw [List.mem_toFinset] at hx ⊢
    exact hsub.mem hx
  · rintro ⟨hsub, hcard⟩
    refine ⟨tup.filter (fun a => decide (a ∈ S)), ⟨List.filter_sublist _, ?_⟩, ?_⟩
    · have hT : (tup.filter (fun a => decide (a ∈ S))).toFinset =
          tup.toFinset ∩ S := by
        rw [List.toFinset_filter]
        simp [Finset.filter_mem_eq_inter]
      have hT' : (tup.filter (fun a => decide (a ∈ S))).toFinset = S := by
        rw [hT, Finset.inter_eq_right.mpr hsub]
      have := List.toFinset_card_of_nodup (h.filter (fun a => decide (a ∈ S)))
      rw [hT', hcard] at this
      exact this.symm
    · have hT : (tup.filter (fun a => decide (a ∈ S))).toFinset =
          tup.toFinset ∩ S := by
        rw [List.toFinset_filter]
        simp [Finset.filter_mem_eq_inter]
      rw [hT, Finset.inter_eq_right.mpr hsub]

/-- Unrolling of the descending loop of `_get_tau_facets`: summing variances
over `tauLoop d fdTup n` sums, over all dictionary entries, the variance of
every entry whose tuple length lies in `[1, n]` and whose frozenset is a
combination of the differentiation tuple of that length. -/
theorem sum_tauLoop (d : FacetAlgebra) (fdTup : List String) (v : String → ℚ)
    (n : Nat) :
    ((tauLoop d fdTup n).map v).sum =
      (d.map fun kv =>
        if 1 ≤ kv.2.length ∧ kv.2.length ≤ n ∧
            kv.2.toFinset ∈ combosOfLen fdTup kv.2.length then v kv.1
        else 0).sum := by
  induction n with
  | zero =>
    have hz : ∀ kv ∈ d,
        (if 1 ≤ kv.2.length ∧ kv.2.length ≤ 0 ∧
            kv.2.toFinset ∈ combosOfLen fdTup kv.2.length then v kv.1
         else 0) = 0 := by
      intro kv _
      rw [if_neg]
      rintro ⟨h1, h2, -⟩
      omega
    rw [List.map_congr_left hz, sum_map_zero]
    rfl
  | succ n ih =>
    rw [tauLoop, List.map_append, List.sum_append, ih,
      sum_map_filterMap_ite, ← List.sum_map_add]
    apply congrArg List.sum
    apply List.map_congr_left
    intro kv _
    by_cases hA : kv.2.length = n + 1
    · simp only [hA]
      by_cases hB : kv.2.toFinset ∈ combosOfLen fdTup (n + 1)
      · rw [if_pos ⟨trivial, hB⟩, if_neg (by rintro ⟨-, h, -⟩; omega),
          if_pos ⟨by omega, by omega, hB⟩, add_zero]
      · rw [if_neg (by rintro ⟨-, h⟩; exact hB h),
          if_neg (by rintro ⟨-, h, -⟩; omega),
          if_neg (by rintro ⟨-, -, h⟩; exact hB h), add_zero]
    · rw [if_neg (by rintro ⟨h, -⟩; exact hA h), zero_add]
      exact if_congr
        ⟨fun ⟨h1, h2, h3⟩ => ⟨h1, by omega, h3⟩,
         fun ⟨h1, h2, h3⟩ => ⟨h1, by omega, h3⟩⟩ rfl rfl

/-- C1: For a facet of differentiation `fd` with duplicate-free tuple
`fdTup`, over a FacetAlgebra whose components all have nonempty,
duplicate-free tuples (the engine pops the `mean` component before the
search), the tau value of `Design._calculate_tau` applied to the facets
found by `Design._get_tau_facets` equals the variance of `fd` itself plus
the variances of exactly those components whose facet set is a strict
subset of `fd`'s facet set. -/
theorem tau_is_variance_of_strict_subset_components
    (d : FacetAlgebra) (v : String → ℚ) (fd : String) (fdTup : List String)
    (hTup : fdTup.Nodup)
    (hcomp : ∀ kv ∈ d, kv.2 ≠ [] ∧ kv.2.Nodup) :
    calculate_tau v (get_tau_facets fd fdTup d) =
      v fd +
        ((d.filter fun kv => decide (kv.2.toFinset ⊂ fdTup.toFinset)).map
          (fun kv => v kv.1)).sum := by
  unfold calculate_tau get_tau_facets
  rw [List.map_cons, List.sum_cons]
  congr 1
  rw [sum_map_filter_ite]
  have hfcard : fdTup.toFinset.card = fdTup.length :=
    List.toFinset_card_of_nodup hTup
  by_cases hlen : 1 < fdTup.length
  · rw [if_pos hlen, sum_tauLoop]
    apply congrArg List.sum
    apply List.map_congr_left
    intro kv hkv
    obtain ⟨hne, hnd⟩ := hcomp kv hkv
    have hcard : kv.2.toFinset.card = kv.2.length :=
      List.toFinset_card_of_nodup hnd
    apply if_congr ?_ rfl rfl
    rw [mem_combosOfLen hTup]
    constructor
    · rintro ⟨h1, h2, h3, -⟩
      refine Finset.ssubset_iff_subset_ne.mpr ⟨h3, fun hEq => ?_⟩
      have := congrArg Finset.card hEq
      omega
    · intro hss
      have hsub := hss.subset
      have hlt : kv.2.toFinset.card < fdTup.toFinset.card :=
        Finset.card_lt_card hss
      have h1 : 1 ≤ kv.2.length := List.length_pos.mpr hne
      exact ⟨h1, by omega, hsub, hcard⟩
  · rw [if_neg hlen]
    simp only [List.map_nil, List.sum_nil]
    symm
    have hz : ∀ kv ∈ d,
        (if kv.2.toFinset ⊂ fdTup.toFinset then v kv.1 else 0) = 0 := by
      intro kv hkv
      obtain ⟨hne, hnd⟩ := hcomp kv hkv
      rw [if_neg]
      intro hss
      have h1 : 0 < kv.2.toFinset.card := by
        rw [List.toFinset_card_of_nodup hnd]
        exact List.length_pos.mpr hne
      have h2 := Finset.card_lt_card hss
      omega
    rw [List.map_congr_left hz, sum_map_zero]

/-- Concrete fully crossed two-facet algebra `p x i` with the mean popped,
as the G-coefficient engine sees it. -/
def exAlgPI : FacetAlgebra :=
  [("p", ["p"]), ("i", ["i"]), ("p x i", ["p", "i"])]

/-- Concrete variance table for `exAlgPI`. -/
def exVarPI : String → ℚ := fun k =>
  if k = "p" then 2 else if k = "i" then 3 else if k = "p x i" then 5 else 0

/-- Witness for C1 on the concrete `p x i` algebra: the tau of `p x i` is
its own variance plus the variances of `p` and `i`. -/
theorem tau_is_variance_of_strict_subset_components_witness :
    ((["p", "i"] : List String).Nodup ∧
      ∀ kv ∈ exAlgPI, kv.2 ≠ [] ∧ kv.2.Nodup) ∧
    calculate_tau exVarPI (get_tau_facets "p x i" ["p", "i"] exAlgPI) =
      exVarPI "p x i" +
        ((exAlgPI.filter fun kv =>
            decide (kv.2.toFinset ⊂ (["p", "i"] : List String).toFinset)).map
          (fun kv => exVarPI kv.1)).sum :=
  ⟨⟨by decide, by decide⟩,
    tau_is_variance_of_strict_subset_components exAlgPI exVarPI "p x i"
      ["p", "i"] (by decide) (by decide)⟩

/-! ## Characterisation of the little-delta facet search -/

/-- Summing the little-delta contributions over the facets found by
`Design._get_little_delta_facets` (for an arbitrary tau-facet list `t`)
sums `variance × levelCoefficient` over exactly the components that are
not the mean, not the facet of differentiation, not in `t`, not of
strictly smaller arity, and whose facet set meets the differentiation
facet set. -/
theorem sum_little_delta_facets (d : FacetAlgebra) (v : String → ℚ)
    (lev : String → String → ℚ) (fd : String) (fdTup : List String)
    (t : List String) :
    calculate_little_delta v lev fd (get_little_delta_facets t fd fdTup d) =
      ((d.filter fun kv => decide (kv.1 ≠ "mean" ∧ kv.1 ≠ fd ∧
          ¬ kv.1 ∈ t ∧ ¬ kv.2.length < fdTup.length ∧
          ¬ Disjoint fdTup.toFinset kv.2.toFinset)).map
        (fun kv => v kv.1 * lev fd kv.1)).sum := by
  unfold calculate_little_delta get_little_delta_facets
  have hfm : ∀ kv ∈ d,
      (if kv.1 = "mean" ∨ kv.1 = fd ∨ kv.2.length < fdTup.length ∨
          kv.1 ∈ t then none
       else if fdTup.any (fun f => f ∈ kv.2) then some kv.1 else none) =
      (if (¬ (kv.1 = "mean" ∨ kv.1 = fd ∨ kv.2.length < fdTup.length ∨
            kv.1 ∈ t) ∧ (fdTup.any fun f => decide (f ∈ kv.2)) = true) then
         some kv.1
       else none) := by
    intro kv _
    split_ifs <;> first | rfl | tauto
  rw [List.filterMap_congr hfm, sum_map_filterMap_ite, sum_map_filter_ite]
  apply congrArg List.sum
  apply List.map_congr_left
  intro kv _
  apply if_congr ?_ rfl rfl
  have hshare : (fdTup.any fun f => decide (f ∈ kv.2)) = true ↔
      ¬ Disjoint fdTup.toFinset kv.2.toFinset := by
    rw [Finset.not_disjoint_iff]
    simp [List.any_eq_true]
  rw [hshare]
  tauto

/-- C2: the relative-error variance delta of `Design._calculate_little_delta`
over `Design._get_little_delta_facets` (with the tau facets of
`Design._get_tau_facets`) is the sum of `variance × levelCoefficient(fd, ·)`
over exactly the components other than the mean, the facet of
differentiation and its tau facets, of arity not strictly smaller, whose
facet set shares at least one facet with the differentiation tuple. -/
theorem little_delta_sums_shared_components
    (d : FacetAlgebra) (v : String → ℚ) (lev : String → String → ℚ)
    (fd : String) (fdTup : List String) :
    calculate_little_delta v lev fd
        (get_little_delta_facets (get_tau_facets fd fdTup d) fd fdTup d) =
      ((d.filter fun kv => decide (kv.1 ≠ "mean" ∧ kv.1 ≠ fd ∧
          ¬ kv.1 ∈ get_tau_facets fd fdTup d ∧
          ¬ kv.2.length < fdTup.length ∧
          ¬ Disjoint fdTup.toFinset kv.2.toFinset)).map
        (fun kv => v kv.1 * lev fd kv.1)).sum :=
  sum_little_delta_facets d v lev fd fdTup (get_tau_facets fd fdTup d)

/-! ## C3: the two reliability coefficients -/

/-- With nonnegative variances and positive level coefficients, the
little-delta error never exceeds the big-Delta error: every facet kept by
the little-delta search is outside the tau facets, hence among the
big-Delta facets. -/
theorem little_delta_le_big_delta
    (d : FacetAlgebra) (v : String → ℚ) (lev : String → String → ℚ)
    (fd : String) (fdTup : List String) (t : List String)
    (hv : ∀ k, 0 ≤ v k) (hlev : ∀ k, 0 < lev fd k) :
    calculate_little_delta v lev fd (get_little_delta_facets t fd fdTup d) ≤
      calculate_big_delta v lev fd (get_big_delta_facets t d) := by
  rw [sum_little_delta_facets, sum_map_filter_ite]
  unfold calculate_big_delta get_big_delta_facets algKeys
  rw [sum_map_filter_ite, List.map_map]
  apply List.sum_le_sum
  intro kv _
  simp only [Function.comp]
  by_cases hS : kv.1 ≠ "mean" ∧ kv.1 ≠ fd ∧ ¬ kv.1 ∈ t ∧
      ¬ kv.2.length < fdTup.length ∧
      ¬ Disjoint fdTup.toFinset kv.2.toFinset
  · rw [if_pos hS, if_pos hS.2.2.1]
  · rw [if_neg hS]
    by_cases ht : ¬ kv.1 ∈ t
    · rw [if_pos ht]
      exact mul_nonneg (hv _) (le_of_lt (hlev _))
    · rw [if_neg ht]

/-- Tau is nonnegative once variances are nonnegative. -/
theorem calculate_tau_nonneg (v : String → ℚ) (hv : ∀ k, 0 ≤ v k)
    (l : List String) : 0 ≤ calculate_tau v l := by
  apply List.sum_nonneg
  intro x hx
  obtain ⟨k, -, rfl⟩ := List.mem_map.mp hx
  exact hv k

/-- Little delta is nonnegative once variances are nonnegative and level
coefficients are positive. -/
theorem calculate_little_delta_nonneg (v : String → ℚ)
    (lev : String → String → ℚ) (fd : String) (hv : ∀ k, 0 ≤ v k)
    (hlev : ∀ k, 0 < lev fd k) (l : List String) :
    0 ≤ calculate_little_delta v lev fd l := by
  apply List.sum_nonneg
  intro x hx
  obtain ⟨k, -, rfl⟩ := List.mem_map.mp hx
  exact mul_nonneg (hv k) (le_of_lt (hlev k))

/-- Pure arithmetic behind C3: for `0 ≤ τ`, `0 ≤ δ ≤ Δ` and `0 < τ + δ`,
the two ratios are ordered and both sit in `[0, 1]`. -/
theorem ratio_facts {τ δ Δ : ℚ} (hτ : 0 ≤ τ) (hδ : 0 ≤ δ) (hδΔ : δ ≤ Δ)
    (h1 : 0 < τ + δ) :
    τ / (τ + Δ) ≤ τ / (τ + δ) ∧ 0 ≤ τ / (τ + Δ) ∧ τ / (τ + Δ) ≤ 1 ∧
      0 ≤ τ / (τ + δ) ∧ τ / (τ + δ) ≤ 1 := by
  have h2 : 0 < τ + Δ := by linarith
  refine ⟨?_, ?_, ?_, ?_, ?_⟩
  · rw [div_le_div_iff₀ h2 h1]
    nlinarith
  · exact div_nonneg hτ (le_of_lt h2)
  · rw [div_le_one h2]
    linarith
  · exact div_nonneg hτ (le_of_lt h1)
  · rw [div_le_one h1]
    linarith

/-- C3: for any facet of differentiation, under nonnegative (clipped)
variance components and strictly positive level coefficients with
`tau + delta > 0`, the rho-squared of `Design._calculate_rho_squared`
dominates the phi-squared of `Design._calculate_phi_squared` and both lie
in `[0, 1]`. -/
theorem phi_le_rho_and_both_in_unit_interval
    (d : FacetAlgebra) (v : String → ℚ) (lev : String → String → ℚ)
    (fd : String) (fdTup : List String)
    (hv : ∀ k, 0 ≤ v k) (hlev : ∀ k, 0 < lev fd k)
    (hpos : 0 < calculate_tau v (get_tau_facets fd fdTup d) +
        calculate_little_delta v lev fd
          (get_little_delta_facets (get_tau_facets fd fdTup d) fd fdTup d)) :
    calculate_phi_squared v lev fd fdTup d ≤
        calculate_rho_squared v lev fd fdTup d ∧
      0 ≤ calculate_phi_squared v lev fd fdTup d ∧
      calculate_phi_squared v lev fd fdTup d ≤ 1 ∧
      0 ≤ calculate_rho_squared v lev fd fdTup d ∧
      calculate_rho_squared v lev fd fdTup d ≤ 1 := by
  have hphi : calculate_phi_squared v lev fd fdTup d =
      calculate_tau v (get_tau_facets fd fdTup d) /
        (calculate_tau v (get_tau_facets fd fdTup d) +
          calculate_big_delta v lev fd
            (get_big_delta_facets (get_tau_facets fd fdTup d) d)) := rfl
  have hrho : calculate_rho_squared v lev fd fdTup d =
      calculate_tau v (get_tau_facets fd fdTup d) /
        (calculate_tau v (get_tau_facets fd fdTup d) +
          calculate_little_delta v lev fd
            (get_little_delta_facets (get_tau_facets fd fdTup d) fd
              fdTup d)) := rfl
  rw [hphi, hrho]
  exact ratio_facts (calculate_tau_nonneg v hv _)
    (calculate_little_delta_nonneg v lev fd hv hlev _)
    (little_delta_le_big_delta d v lev fd fdTup _ hv hlev) hpos

/-- Constant level-coefficient table used for the witness. -/
def exLevPI : String → String → ℚ := fun _ _ => 1 / 2

/-- Witness for C3 on the concrete `p x i` algebra with facet of
differentiation `p`. -/
theorem phi_le_rho_witness :
    calculate_phi_squared exVarPI exLevPI "p" ["p"] exAlgPI ≤
        calculate_rho_squared exVarPI exLevPI "p" ["p"] exAlgPI ∧
      0 ≤ calculate_phi_squared exVarPI exLevPI "p" ["p"] exAlgPI ∧
      calculate_phi_squared exVarPI exLevPI "p" ["p"] exAlgPI ≤ 1 ∧
      0 ≤ calculate_rho_squared exVarPI exLevPI "p" ["p"] exAlgPI ∧
      calculate_rho_squared exVarPI exLevPI "p" ["p"] exAlgPI ≤ 1 :=
  phi_le_rho_and_both_in_unit_interval exAlgPI exVarPI exLevPI "p" ["p"]
    (fun k => by unfold exVarPI; split_ifs <;> norm_num)
    (fun k => by norm_num [exLevPI])
    (by
      have h2 : get_little_delta_facets (get_tau_facets "p" ["p"] exAlgPI)
          "p" ["p"] exAlgPI = ["p x i"] := by rfl
      have h1 : get_tau_facets "p" ["p"] exAlgPI = ["p"] := by rfl
      rw [h2, h1]
      simp only [calculate_tau, calculate_little_delta, List.map_cons,
        List.map_nil, List.sum_cons, List.sum_nil]
      unfold exVarPI exLevPI
      split_ifs <;> try norm_num
      exact ((by assumption : ¬ "p" = "p") rfl).elim)

/-! ## Session state and the `g_coeffs` entry point -/

/-- Variance lookup in an association-list table (`df.loc[k, 'Variance']`;
keys are validated to match before use). -/
def lookupVar (df : List (String × ℚ)) (k : String) : ℚ :=
  ((df.find? fun kv => kv.1 = k).map Prod.snd).getD 0

/-- Facet-tuple lookup in a FacetAlgebra (`variance_tup_dict[k]`). -/
def lookupTup (d : FacetAlgebra) (k : String) : List String :=
  ((d.find? fun kv => kv.1 = k).map Prod.snd).getD []

/-- `max(variance_tup_dict, key=lambda x: len(variance_tup_dict[x]))`:
the first key attaining the maximal tuple length (Python `max` keeps the
earliest maximal item).  Python raises on an empty dict; that case is
unreachable here and mapped to `""`. -/
def max_facet : FacetAlgebra → String
  | [] => ""
  | kv :: rest =>
      (rest.foldl (fun best x => if x.2.length > best.2.length then x else best)
        kv).1

/-- `Design._calculate_g_coeffs`: one row of `phi^2`/`rho^2` per variance
row except the mean and the largest facet (the NaN rows of the skipped
facets are dropped at the end). -/
def calculate_g_coeffs (variance_df : List (String × ℚ))
    (lev : String → String → ℚ) (d : FacetAlgebra) :
    List (String × ℚ × ℚ) :=
  (variance_df.filter fun kv => ¬ kv.1 = "mean" ∧ ¬ kv.1 = max_facet d).map
    fun kv =>
      (kv.1,
       calculate_phi_squared (lookupVar variance_df) lev kv.1
         (lookupTup d kv.1) d,
       calculate_rho_squared (lookupVar variance_df) lev kv.1
         (lookupTup d kv.1) d)

/-- The mutable attributes of a `Design` analysis session that the
`g_coeffs` entry point reads or writes.  The levels-coefficient table is
modelled as an already-computed total function (the
`elif not self.levels_coeffs.empty` branch of `g_coeffs`). -/
structure DesignState where
  variance_tuple_dictionary : FacetAlgebra
  anova_table : List (String × ℚ)
  levels_coeffs : String → String → ℚ
  g_coeffs_table : List (String × ℚ × ℚ)

/-- `Design.g_coeffs()` called with no keyword arguments.
`variance_tup_dict = self.variance_tuple_dictionary` aliases the instance
attribute, so `variance_tup_dict.pop('mean', None)` removes the `'mean'`
entry from the session's own FacetAlgebra (a Python dict has unique keys,
so the pop is a key filter) before the ANOVA-table precondition is even
checked; the call then either fails on a missing or mismatched ANOVA table
or stores the G-coefficient table. -/
def g_coeffs_default (s : DesignState) : DesignState × Except String Unit :=
  let vtd := s.variance_tuple_dictionary.filter fun kv => ¬ kv.1 = "mean"
  let s1 : DesignState := { s with variance_tuple_dictionary := vtd }
  if s1.anova_table = [] then
    (s1, Except.error
      "Please calculate the ANOVA table using the calculate_anova method")
  else
    let variance_df := (s1.anova_table.filter fun kv => ¬ kv.1 = "mean").map
      fun kv => (kv.1, if kv.2 < 0 then 0 else kv.2)
    if (variance_df.map Prod.fst).toFinset ≠ (algKeys vtd).toFinset then
      (s1, Except.error
        "ANOVA table indices do not match the variance tuple dictionary keys")
    else
      ({ s1 with g_coeffs_table :=
          calculate_g_coeffs variance_df s1.levels_coeffs vtd },
       Except.ok ())

/-- `Design.calculate_anova` drives `_calculate_T_values` and
`_create_variance_coefficients_table`, both of which iterate exactly over
`self.variance_tuple_dictionary.keys()`; the variance components of a run
are therefore the key list of the session's FacetAlgebra. -/
def anova_component_keys (s : DesignState) : List String :=
  algKeys s.variance_tuple_dictionary

/-- C10: a default `g_coeffs()` call filters `'mean'` out of the session's
shared `variance_tuple_dictionary` itself, so a subsequent
`calculate_anova` on the same session iterates over a FacetAlgebra with no
`'mean'` component; and the removal happens before the ANOVA-table
precondition check, so it persists even when that check fails. -/
theorem g_coeffs_default_permanently_pops_mean (s : DesignState) :
    ¬ "mean" ∈ anova_component_keys (g_coeffs_default s).1 ∧
    (g_coeffs_default s).1.variance_tuple_dictionary =
      s.variance_tuple_dictionary.filter (fun kv => ¬ kv.1 = "mean") ∧
    (g_coeffs_default { s with anova_table := [] }).2 =
      Except.error
        "Please calculate the ANOVA table using the calculate_anova method" ∧
    ¬ "mean" ∈ anova_component_keys
        (g_coeffs_default { s with anova_table := [] }).1 := by
  have hvtd : ∀ s' : DesignState,
      (g_coeffs_default s').1.variance_tuple_dictionary =
        s'.variance_tuple_dictionary.filter (fun kv => ¬ kv.1 = "mean") := by
    intro s'
    unfold g_coeffs_default
    dsimp only
    split_ifs <;> rfl
  have hmean : ∀ s' : DesignState,
      ¬ "mean" ∈ anova_component_keys (g_coeffs_default s').1 := by
    intro s' hmem
    unfold anova_component_keys algKeys at hmem
    rw [hvtd s'] at hmem
    obtain ⟨kv, hkv, hfst⟩ := List.mem_map.mp hmem
    have := (List.mem_filter.mp hkv).2
    simp only [decide_eq_true_eq] at this
    exact this hfst
  refine ⟨hmean s, hvtd s, ?_, hmean _⟩
  unfold g_coeffs_default
  simp

/-! ## C7: `g_coeffs` with a caller-supplied variance dictionary -/

/-- `Design.g_coeffs(variance_dictionary=...)` (no other keyword
arguments): after the shared `variance_tuple_dictionary` is aliased and its
`'mean'` entry popped, the caller's dictionary is validated — the loop
raises `ValueError("Variance component '<key>' is negative.")` at the first
negative value — then its keys are compared with the algebra's, the
`'mean'` row is dropped and remaining negatives are clipped to zero (at
that point none can remain), and the G-coefficient table is built. -/
def g_coeffs_user_variance (s : DesignState)
    (variance_dict : List (String × ℚ)) : DesignState × Except String Unit :=
  let vtd := s.variance_tuple_dictionary.filter fun kv => ¬ kv.1 = "mean"
  let s1 : DesignState := { s with variance_tuple_dictionary := vtd }
  match variance_dict.find? (fun kv => kv.2 < 0) with
  | some kv =>
      (s1, Except.error ("Variance component '" ++ kv.1 ++ "' is negative."))
  | none =>
      if (variance_dict.map Prod.fst).toFinset ≠ (algKeys vtd).toFinset then
        (s1, Except.error
          "Variance dictionary keys do not match the variance tuple dictionary keys")
      else
        let variance_df := (variance_dict.filter fun kv => ¬ kv.1 = "mean").map
          fun kv => (kv.1, if kv.2 < 0 then 0 else kv.2)
        ({ s1 with g_coeffs_table :=
            calculate_g_coeffs variance_df s1.levels_coeffs vtd },
         Except.ok ())

/-- A session whose FacetAlgebra is the crossed `p x i` design (with its
`mean` component) and whose levels table is already computed. -/
def exStatePI : DesignState :=
  { variance_tuple_dictionary :=
      [("p", ["p"]), ("i", ["i"]), ("p x i", ["p", "i"]), ("mean", [])]
    anova_table := [("p", 2), ("i", 3), ("p x i", 5), ("mean", 100)]
    levels_coeffs := exLevPI
    g_coeffs_table := [] }

/-- A caller-supplied variance dictionary with a negative component. -/
def exNegVarDict : List (String × ℚ) := [("p", 2), ("i", -1), ("p x i", 3)]

/-- Counterexample to C7: a caller-supplied variance dictionary with a
negative component makes `g_coeffs` fail with a `ValueError` naming the
component — the call errors out instead of clipping the value to zero with
a warning. -/
theorem g_coeffs_user_negative_raises_cex :
    (g_coeffs_user_variance exStatePI exNegVarDict).2 =
      Except.error "Variance component 'i' is negative." ∧
    (g_coeffs_user_variance exStatePI exNegVarDict).2 ≠ Except.ok () := by
  have hfind : exNegVarDict.find? (fun kv => kv.2 < 0) = some ("i", -1) := by
    unfold exNegVarDict
    rw [List.find?_cons_of_neg, List.find?_cons_of_pos]
    · norm_num
    · norm_num
  constructor
  · unfold g_coeffs_user_variance
    rw [hfind]
    rfl
  · unfold g_coeffs_user_variance
    rw [hfind]
    intro h
    exact Except.noConfusion h

/-- C7 as amended: whenever the validation loop of `g_coeffs` finds a
negative entry in the caller-supplied variance dictionary (the first one,
`kv`), the call fails with the `ValueError` naming that component, and the
session's G-coefficient table is left untouched. -/
theorem g_coeffs_user_negative_raises (s : DesignState)
    (dict : List (String × ℚ)) (kv : String × ℚ)
    (hfind : dict.find? (fun kv => kv.2 < 0) = some kv) :
    (g_coeffs_user_variance s dict).2 =
      Except.error ("Variance component '" ++ kv.1 ++ "' is negative.") ∧
    (g_coeffs_user_variance s dict).1.g_coeffs_table = s.g_coeffs_table := by
  unfold g_coeffs_user_variance
  rw [hfind]
  exact ⟨rfl, rfl⟩

/-- Witness for the amended C7 at the concrete negative dictionary. -/
theorem g_coeffs_user_negative_raises_witness :
    (g_coeffs_user_variance exStatePI exNegVarDict).2 =
      Except.error ("Variance component '" ++ "i" ++ "' is negative.") ∧
    (g_coeffs_user_variance exStatePI exNegVarDict).1.g_coeffs_table =
      exStatePI.g_coeffs_table :=
  g_coeffs_user_negative_raises exStatePI exNegVarDict ("i", -1)
    (by
      unfold exNegVarDict
      rw [List.find?_cons_of_neg, List.find?_cons_of_pos] <;> norm_num)

/-! ## C6: the linear solve of `_calculate_variance` -/

/-- `numpy.linalg.solve`: raises `LinAlgError("Singular matrix")` on an
exactly singular coefficient matrix, otherwise returns the unique solution
of `A · x = B`.  (Near-singular detection is a floating-point phenomenon
with no exact-arithmetic counterpart.) -/
def np_linalg_solve {n : ℕ} (A : Matrix (Fin n) (Fin n) ℚ) (B : Fin n → ℚ) :
    Except String (Fin n → ℚ) :=
  if A.det = 0 then Except.error "Singular matrix"
  else Except.ok (((A.det)⁻¹ • A.adjugate).mulVec B)

/-- `Design._calculate_variance`, steps 2–3: extract the coefficient matrix
`A` and the T-value vector `B` from the regression matrix and call
`np.linalg.solve(A, B)` with no surrounding `try`/`except` — whatever the
solver does is propagated as-is.  (The 4-decimal rounding and table storage
on the success path follow the solve and are irrelevant to the failure
behaviour studied here.) -/
def calculate_variance_solve {n : ℕ} (A : Matrix (Fin n) (Fin n) ℚ)
    (B : Fin n → ℚ) : Except String (Fin n → ℚ) :=
  np_linalg_solve A B

/-- Counterexample to C6: on a concrete singular coefficient matrix, the
variance solve surfaces numpy's default `LinAlgError("Singular matrix")`,
which is not the claimed clear "non-invertible design" error. -/
theorem singular_solve_default_error_cex :
    calculate_variance_solve !![(1 : ℚ), 1; 1, 1] ![1, 1] =
      Except.error "Singular matrix" ∧
    "Singular matrix" ≠ "non-invertible design" := by
  constructor
  · unfold calculate_variance_solve np_linalg_solve
    rw [if_pos]
    rw [Matrix.det_fin_two_of]
    norm_num
  · intro h
    exact absurd h (by decide)

/-- C6 as amended: for every exactly singular coefficient matrix the
variance solve of `calculate_anova` propagates the numeric solver's default
`LinAlgError("Singular matrix")` — there is no design-specific
"non-invertible design" translation, and near-singular matrices are not
detected at all. -/
theorem singular_matrix_propagates_solver_error {n : ℕ}
    (A : Matrix (Fin n) (Fin n) ℚ) (B : Fin n → ℚ) (h : A.det = 0) :
    calculate_variance_solve A B = Except.error "Singular matrix" := by
  unfold calculate_variance_solve np_linalg_solve
  rw [if_pos h]

/-- Witness for the amended C6 on the concrete singular matrix. -/
theorem singular_matrix_propagates_solver_error_witness :
    calculate_variance_solve !![(1 : ℚ), 2; 2, 4] ![1, 1] =
      Except.error "Singular matrix" :=
  singular_matrix_propagates_solver_error !![(1 : ℚ), 2; 2, 4] ![1, 1]
    (by rw [Matrix.det_fin_two_of]; norm_num)

/-! ## C5: the T value of the `mean` component -/

/-- A pandas DataFrame: a set of named columns over a list of rows.
Accessing a column checks its presence (`df[c]` raises `KeyError`
otherwise). -/
structure DataFrame where
  cols : List String
  rows : List (String → ℚ)

/-- Mean of a list of rationals (`Series.mean`). -/
def listMean (l : List ℚ) : ℚ := l.sum / l.length

/-- The `else` branch of `Design._calculate_T_values` (the `mean`
component, empty effect variables): `df['Response'].mean()` and
`df['Response'].count()` — the column name `'Response'` is hardcoded and
the configured `response_col` is never consulted, unlike the grouped
branch which aggregates `self.response_col`.  A missing `'Response'`
column raises `KeyError`, which the surrounding `try`/`except` converts to
`ValueError("Error calculating T values: ...")`. -/
def T_mean_component (df : DataFrame) (response_col : String) :
    Except String ℚ :=
  if "Response" ∈ df.cols then
    Except.ok ((listMean (df.rows.map fun r => r "Response")) ^ 2 *
      df.rows.length)
  else
    Except.error "Error calculating T values: KeyError 'Response'"

/-- What the spec states for the mean component: the overall mean of the
configured response column, squared, times the row count (4-decimal
rounding left aside); defined for any response column name present in the
data. -/
def T_mean_spec (df : DataFrame) (response_col : String) : Except String ℚ :=
  if response_col ∈ df.cols then
    Except.ok ((listMean (df.rows.map fun r => r response_col)) ^ 2 *
      df.rows.length)
  else
    Except.error "response column missing"

/-- A two-row dataset whose response column is named `score`. -/
def exDfScore : DataFrame :=
  { cols := ["p", "i", "score"]
    rows := [fun c => if c = "score" then 1 else 0,
             fun c => if c = "score" then 2 else 0] }

/-- C5 fails on the code: with the response column configured as `score`,
the mean-component T value raises (the hardcoded `df['Response']` lookup
fails), while the spec's computation succeeds with
`((1+2)/2)^2 * 2 = 9/2`; on this input the code diverges from the claim
that the computation succeeds regardless of the response column's name. -/
theorem T_mean_hardcoded_response_bug :
    T_mean_component exDfScore "score" =
      Except.error "Error calculating T values: KeyError 'Response'" ∧
    T_mean_spec exDfScore "score" = Except.ok (9 / 2) := by
  constructor
  · unfold T_mean_component exDfScore
    rw [if_neg (by decide)]
  · unfold T_mean_spec exDfScore
    rw [if_pos (by decide)]
    congr 1
    unfold listMean
    norm_num

/-! ## C4: the variance-coefficient matrix -/

/-- A dataset row: facet columns (and the response) valued in `ℚ`.
Grouping only compares values for equality. -/
abbrev Row := String → ℚ

/-- The group key of a row under a column list (`df.groupby(cols)`). -/
def rowKey (cols : List String) (r : Row) : List ℚ := cols.map r

/-- The distinct group keys of `df.groupby(cols)`, in first-appearance
order. -/
def groupKeys (df : List Row) (cols : List String) : List (List ℚ) :=
  (df.map (rowKey cols)).dedup

/-- The size of one group of `df.groupby(cols)` (`.size()`). -/
def groupCount (df : List Row) (cols : List String) (key : List ℚ) : ℕ :=
  (df.filter fun r => decide (rowKey cols r = key)).length

/-- `grouping_columns = facets[:]` followed by
`for v in grouping_vars: if v not in grouping_columns: append(v)`. -/
def appendNew (acc : List String) : List String → List String
  | [] => acc
  | v :: vs => appendNew (if v ∈ acc then acc else acc ++ [v]) vs

/-- `total_counts_df`: for a `grouping_columns` key `k`, the sum of the
counts of all `grouping_columns` groups lying in the same `facets` group
(the key restricted to the leading `facets` coordinates). -/
def totalCountWithin (df : List Row) (gcols facets : List String)
    (k : List ℚ) : ℕ :=
  (((groupKeys df gcols).filter fun k2 =>
      decide (k2.take facets.length = k.take facets.length)).map
    fun k2 => groupCount df gcols k2).sum

/-- `Design._calculate_variance_coefficients`: the quadratic-form
coefficient for column component tuple `grouping_vars` against row
component tuple `facets`.  Empty `grouping_vars` (the mean column) yields
the dataset size; otherwise the counts of the combined grouping are
squared and divided by the group totals within the `facets` grouping (or
by the overall total when `facets` is empty).  The merge/regroup of the
source sums the same per-group terms. -/
def calculate_variance_coefficients (df : List Row)
    (grouping_vars facets : List String) : ℚ :=
  if grouping_vars = [] then (df.length : ℚ)
  else
    let grouping_columns := appendNew facets grouping_vars
    if facets ≠ [] then
      ((groupKeys df grouping_columns).map fun k =>
        (groupCount df grouping_columns k : ℚ) ^ 2 /
          (totalCountWithin df grouping_columns facets k : ℚ)).sum
    else
      let total := ((groupKeys df grouping_columns).map fun k =>
        groupCount df grouping_columns k).sum
      ((groupKeys df grouping_columns).map fun k =>
        (groupCount df grouping_columns k : ℚ) ^ 2 / (total : ℚ)).sum

/-- Two rows agree on every column of `cols`. -/
def agreesOn (cols : List String) (r s : Row) : Prop := ∀ c ∈ cols, s c = r c

instance (cols : List String) (r s : Row) : Decidable (agreesOn cols r s) :=
  List.decidableBAll _ cols

/-- Membership in the accumulated grouping-column list. -/
theorem mem_appendNew (vs : List String) :
    ∀ (acc : List String) (c : String),
      c ∈ appendNew acc vs ↔ c ∈ acc ∨ c ∈ vs := by
  induction vs with
  | nil => intro acc c; simp [appendNew]
  | cons v vs ih =>
    intro acc c
    rw [appendNew, ih]
    by_cases hv : v ∈ acc
    · rw [if_pos hv]
      constructor
      · rintro (h | h)
        · exact Or.inl h
        · exact Or.inr (List.mem_cons_of_mem v h)
      · rintro (h | h)
        · exact Or.inl h
        · rcases List.mem_cons.mp h with rfl | h
          · exact Or.inl hv
          · exact Or.inr h
    · rw [if_neg hv]
      simp only [List.mem_append, List.mem_singleton, List.mem_cons]
      tauto

/-- The accumulated grouping-column list extends its seed. -/
theorem appendNew_eq_append (vs : List String) :
    ∀ acc : List String, ∃ t, appendNew acc vs = acc ++ t := by
  induction vs with
  | nil => intro acc; exact ⟨[], by simp [appendNew]⟩
  | cons v vs ih =>
    intro acc
    rw [appendNew]
    by_cases hv : v ∈ acc
    · rw [if_pos hv]; exact ih acc
    · rw [if_neg hv]
      obtain ⟨t, ht⟩ := ih (acc ++ [v])
      exact ⟨v :: t, by rw [ht, List.append_assoc]; rfl⟩

/-- Restricting a combined grouping key to its leading `facets` coordinates
recovers the `facets` key. -/
theorem take_rowKey (facets vs : List String) (r : Row) :
    (rowKey (appendNew facets vs) r).take facets.length = rowKey facets r := by
  obtain ⟨t, ht⟩ := appendNew_eq_append vs facets
  rw [ht]
  unfold rowKey
  rw [List.map_append, List.take_left' (List.length_map facets r)]

/-- Summing a per-group quantity weighted by the group size equals summing
it once per row. -/
theorem sum_groupKeys_weighted {M : Type*} [AddCommMonoid M]
    (df : List Row) (cols : List String) (F : List ℚ → M) :
    ((groupKeys df cols).map fun k => groupCount df cols k • F k).sum =
      (df.map fun r => F (rowKey cols r)).sum := by
  set l := df.map (rowKey cols) with hl
  have hbridge : ∀ k, groupCount df cols k =
      @List.count (List ℚ) instBEqOfDecidableEq k l := by
    intro k
    unfold groupCount
    rw [← List.countP_eq_length_filter,
      @List.count_eq_countP (List ℚ) instBEqOfDecidableEq k l, hl,
      List.countP_map]
    apply List.countP_congr
    intro r _
    rfl
  have h1 : ((groupKeys df cols).map fun k => groupCount df cols k • F k) =
      (l.dedup.map fun k =>
        @List.count (List ℚ) instBEqOfDecidableEq k l • F k) := by
    unfold groupKeys
    rw [← hl]
    apply List.map_congr_left
    intro k _
    rw [hbridge]
  rw [h1]
  have h2 : (l.map F).sum = (df.map fun r => F (rowKey cols r)).sum := by
    rw [hl, List.map_map]
    rfl
  rw [← h2, Finset.sum_list_map_count l F]
  have hfin : l.dedup.toFinset = l.toFinset := by
    ext a
    simp [List.mem_dedup]
  rw [← List.sum_toFinset _ (List.nodup_dedup l), hfin]

/-- Counting rows satisfying a predicate as a sum of indicator ones. -/
theorem sum_map_ite_one {α : Type*} (d : List α) (p : α → Prop)
    [DecidablePred p] :
    (d.map fun a => if p a then (1 : ℕ) else 0).sum =
      (d.filter fun a => decide (p a)).length := by
  induction d with
  | nil => rfl
  | cons a d ih =>
    by_cases h : p a <;> simp [List.filter_cons, h, ih, Nat.add_comm]

/-- Equal group keys mean agreement on every grouping column. -/
theorem rowKey_eq_iff (cols : List String) (r s : Row) :
    rowKey cols s = rowKey cols r ↔ agreesOn cols r s := by
  unfold rowKey agreesOn
  exact List.map_eq_map_iff

/-- C4: every entry of the variance-coefficient matrix — row component
tuple `facets`, column component tuple `grouping_vars` — is the total row
count when the column tuple is empty, and otherwise sums, over the rows of
the (missing-data-filtered) dataset, the size of the row's group under the
union of the two tuples divided by the size of its group under the row
component's tuple alone. -/
theorem variance_coefficient_entry_characterisation
    (df : List Row) (grouping_vars facets : List String) :
    calculate_variance_coefficients df grouping_vars facets =
      if grouping_vars = [] then (df.length : ℚ)
      else
        (df.map fun r =>
          ((df.filter fun s =>
              decide (agreesOn facets r s ∧ agreesOn grouping_vars r s)).length : ℚ) /
          ((df.filter fun s => decide (agreesOn facets r s)).length : ℚ)).sum := by
  unfold calculate_variance_coefficients
  by_cases hg : grouping_vars = []
  · rw [if_pos hg, if_pos hg]
  rw [if_neg hg, if_neg hg]
  set gcols := appendNew facets grouping_vars with hgcols
  -- the combined key determines agreement on both tuples
  have hkey : ∀ r s : Row, rowKey gcols s = rowKey gcols r ↔
      (agreesOn facets r s ∧ agreesOn grouping_vars r s) := by
    intro r s
    rw [rowKey_eq_iff]
    unfold agreesOn
    constructor
    · intro h
      constructor
      · intro c hc
        exact h c ((mem_appendNew grouping_vars facets c).mpr (Or.inl hc))
      · intro c hc
        exact h c ((mem_appendNew grouping_vars facets c).mpr (Or.inr hc))
    · rintro ⟨h1, h2⟩ c hc
      rcases (mem_appendNew grouping_vars facets c).mp hc with h | h
      · exact h1 c h
      · exact h2 c h
  -- the size of a row's combined group counts the rows agreeing on both
  -- tuples
  have hcnt : ∀ r : Row, groupCount df gcols (rowKey gcols r) =
      (df.filter fun s =>
        decide (agreesOn facets r s ∧ agreesOn grouping_vars r s)).length := by
    intro r
    unfold groupCount
    congr 1
    apply List.filter_congr
    intro s _
    exact decide_eq_decide.mpr (hkey r s)
  -- the total within a row's facets group counts the rows agreeing on the
  -- row tuple
  have htot : ∀ r : Row, totalCountWithin df gcols facets (rowKey gcols r) =
      (df.filter fun s => decide (agreesOn facets r s)).length := by
    intro r
    unfold totalCountWithin
    rw [sum_map_filter_ite (groupKeys df gcols)
      (fun k2 => k2.take facets.length =
        (rowKey gcols r).take facets.length)
      (fun k2 => groupCount df gcols k2)]
    have hpoint : ∀ k2 ∈ groupKeys df gcols,
        (if k2.take facets.length = (rowKey gcols r).take facets.length then
          groupCount df gcols k2 else 0) =
        groupCount df gcols k2 •
          (if k2.take facets.length = (rowKey gcols r).take facets.length
           then (1 : ℕ) else 0) := by
      intro k2 _
      by_cases h : k2.take facets.length =
          (rowKey gcols r).take facets.length <;> simp [h]
    rw [List.map_congr_left hpoint,
      sum_groupKeys_weighted df gcols
        (fun k2 => if k2.take facets.length =
          (rowKey gcols r).take facets.length then (1 : ℕ) else 0),
      sum_map_ite_one]
    congr 1
    apply List.filter_congr
    intro s _
    apply decide_eq_decide.mpr
    rw [hgcols, take_rowKey, take_rowKey, ← rowKey_eq_iff]
  by_cases hf : facets = []
  · -- empty row tuple: the denominator group is the whole dataset
    rw [if_neg (by simp [hf])]
    have htotal : ((groupKeys df gcols).map fun k =>
        groupCount df gcols k).sum = df.length := by
      have hone : ((groupKeys df gcols).map fun k => groupCount df gcols k) =
          ((groupKeys df gcols).map fun k =>
            groupCount df gcols k • (1 : ℕ)) := by
        apply List.map_congr_left
        intro k _
        rw [smul_eq_mul, mul_one]
      rw [hone, sum_groupKeys_weighted df gcols (fun _ => (1 : ℕ))]
      simp
    rw [htotal]
    have hsum : ((groupKeys df gcols).map fun k =>
        (groupCount df gcols k : ℚ) ^ 2 / (df.length : ℚ)).sum =
        ((groupKeys df gcols).map fun k =>
          groupCount df gcols k •
            ((groupCount df gcols k : ℚ) / (df.length : ℚ))).sum := by
      apply congrArg List.sum
      apply List.map_congr_left
      intro k _
      rw [nsmul_eq_mul]
      ring
    rw [hsum, sum_groupKeys_weighted df gcols
      (fun k => (groupCount df gcols k : ℚ) / (df.length : ℚ))]
    apply congrArg List.sum
    apply List.map_congr_left
    intro r _
    rw [hcnt r]
    have hden : (df.filter fun s => decide (agreesOn facets r s)).length =
        df.length := by
      have hall : ∀ s ∈ df, decide (agreesOn facets r s) = (fun _ => true) s := by
        intro s _
        subst hf
        simp [agreesOn]
      rw [List.filter_congr hall]
      exact congrArg List.length (List.filter_true df)
    rw [hden]
  · -- nonempty row tuple
    rw [if_pos hf]
    have hsum : ((groupKeys df gcols).map fun k =>
        (groupCount df gcols k : ℚ) ^ 2 /
          (totalCountWithin df gcols facets k : ℚ)).sum =
        ((groupKeys df gcols).map fun k =>
          groupCount df gcols k •
            ((groupCount df gcols k : ℚ) /
              (totalCountWithin df gcols facets k : ℚ))).sum := by
      apply congrArg List.sum
      apply List.map_congr_left
      intro k _
      rw [nsmul_eq_mul]
      ring
    rw [hsum, sum_groupKeys_weighted df gcols
      (fun k => (groupCount df gcols k : ℚ) /
        (totalCountWithin df gcols facets k : ℚ))]
    apply congrArg List.sum
    apply List.map_congr_left
    intro r _
    rw [hcnt r, htot r]

/-! ## C9: the levels-coefficient matrix -/

/-- The grouping columns of `_calculate_levels_coeffs`:
`facet_of_differentiation_list + [v for v in grouping_vars if v not in
facet_of_differentiation_list]` (a list comprehension, not an accumulating
append). -/
def levelsGroupingColumns (fod gvars : List String) : List String :=
  fod ++ gvars.filter (fun v => ¬ v ∈ fod)

/-- The `grouping_columns` keys of `counts_df` falling in one
facet-of-differentiation group (the rows of `counts_df.groupby(fod)`). -/
def subKeysOf (df : List Row) (gcols fod : List String) (g : List ℚ) :
    List (List ℚ) :=
  (groupKeys df gcols).filter fun k => decide (k.take fod.length = g)

/-- `'count': 'sum'` of one facet-of-differentiation group. -/
def sumCountsOf (df : List Row) (gcols fod : List String) (g : List ℚ) : ℕ :=
  ((subKeysOf df gcols fod g).map fun k => groupCount df gcols k).sum

/-- `lambda x: (x ** 2).sum()` of one facet-of-differentiation group. -/
def sumOfSquaresOf (df : List Row) (gcols fod : List String) (g : List ℚ) :
    ℕ :=
  ((subKeysOf df gcols fod g).map fun k => (groupCount df gcols k) ^ 2).sum

/-- One cell of `_calculate_levels_coeffs`: count the `grouping_columns`
combinations, group them by the facet of differentiation, form
`ratio = sum² / sum-of-squares` per group, and return
`np.mean(1 / ratio)` — the harmonic-mean-adjusted inverse level. -/
def inverse_level (df : List Row) (fod gvars : List String) : ℚ :=
  let gcols := levelsGroupingColumns fod gvars
  let fodKeys := ((groupKeys df gcols).map fun k => k.take fod.length).dedup
  ((fodKeys.map fun g =>
      (sumOfSquaresOf df gcols fod g : ℚ) /
        ((sumCountsOf df gcols fod g : ℚ)) ^ 2).sum) / (fodKeys.length : ℚ)

/-- `Design._calculate_levels_coeffs` as a cell function: the `mean` row
and column are dropped, the row of the maximal facet is set identically to
`1`, and every other cell with a nonempty differentiation tuple holds the
inverse level of its two tuples; other cells stay unfilled (NaN). -/
def calculate_levels_coeffs (d : FacetAlgebra) (df : List Row)
    (key gfacet : String) : Option ℚ :=
  if key = "mean" ∨ gfacet = "mean" then none
  else if key = max_facet d then some 1
  else if lookupTup d key ≠ [] then
    some (inverse_level df (lookupTup d key) (lookupTup d gfacet))
  else none

/-- Keys of observed groups are keys of observed rows. -/
theorem mem_groupKeys {df : List Row} {cols : List String} {k : List ℚ} :
    k ∈ groupKeys df cols ↔ ∃ r ∈ df, rowKey cols r = k := by
  unfold groupKeys
  rw [List.mem_dedup, List.mem_map]

/-- Every observed group is nonempty. -/
theorem groupCount_pos {df : List Row} {cols : List String} {k : List ℚ}
    (hk : k ∈ groupKeys df cols) : 0 < groupCount df cols k := by
  obtain ⟨r, hr, hkey⟩ := mem_groupKeys.mp hk
  unfold groupCount
  rw [List.length_pos]
  intro hnil
  have : r ∈ df.filter fun r => decide (rowKey cols r = k) :=
    List.mem_filter.mpr ⟨hr, by rw [hkey]; simp⟩
  rw [hnil] at this
  exact List.not_mem_nil r this

/-- On nonempty data every inverse level is strictly positive: each
facet-of-differentiation group contains at least one observed combination,
so its sum-of-squares and total count are positive, and the mean over the
nonempty group list is positive. -/
theorem inverse_level_pos (df : List Row) (fod gvars : List String)
    (hdf : df ≠ []) : 0 < inverse_level df fod gvars := by
  unfold inverse_level
  set gcols := levelsGroupingColumns fod gvars with hgcols
  set fodKeys := ((groupKeys df gcols).map fun k => k.take fod.length).dedup
    with hfodKeys
  have hne : fodKeys ≠ [] := by
    rw [hfodKeys]
    intro h
    rcases df with _ | ⟨r, df'⟩
    · exact hdf rfl
    · have hkmem : rowKey gcols r ∈ groupKeys (r :: df') gcols :=
        mem_groupKeys.mpr ⟨r, List.mem_cons_self r df', rfl⟩
      have hmem : (rowKey gcols r).take fod.length ∈
          ((groupKeys (r :: df') gcols).map fun k => k.take fod.length).dedup := by
        rw [List.mem_dedup]
        exact List.mem_map.mpr ⟨rowKey gcols r, hkmem, rfl⟩
      rw [h] at hmem
      exact List.not_mem_nil _ hmem
  apply div_pos
  · apply List.sum_pos
    · intro x hx
      obtain ⟨g, hg, rfl⟩ := List.mem_map.mp hx
      rw [List.mem_dedup] at hg
      obtain ⟨k, hk, hkg⟩ := List.mem_map.mp hg
      have hkin : k ∈ subKeysOf df gcols fod g := by
        unfold subKeysOf
        exact List.mem_filter.mpr ⟨hk, by rw [hkg]; simp⟩
      have hsub_ne : subKeysOf df gcols fod g ≠ [] := by
        intro h
        rw [h] at hkin
        exact List.not_mem_nil k hkin
      apply div_pos
      · have hpos : 0 < sumOfSquaresOf df gcols fod g := by
          unfold sumOfSquaresOf
          apply List.sum_pos
          · intro x hx2
            obtain ⟨k2, hk2, rfl⟩ := List.mem_map.mp hx2
            unfold subKeysOf at hk2
            exact pow_pos (groupCount_pos (List.mem_filter.mp hk2).1) 2
          · intro h
            rw [List.map_eq_nil_iff] at h
            exact hsub_ne h
        exact_mod_cast hpos
      · have hpos : 0 < sumCountsOf df gcols fod g := by
          unfold sumCountsOf
          apply List.sum_pos
          · intro x hx2
            obtain ⟨k2, hk2, rfl⟩ := List.mem_map.mp hx2
            unfold subKeysOf at hk2
            exact groupCount_pos (List.mem_filter.mp hk2).1
          · intro h
            rw [List.map_eq_nil_iff] at h
            exact hsub_ne h
        positivity
    · intro h
      rw [List.map_eq_nil_iff] at h
      exact hne h
  · rw [Nat.cast_pos, List.length_pos]
    exact hne

/-- C9: in every levels-coefficient matrix — computed from the real
dataset or from a D-study pseudo-count table — the row of the maximal
component is identically `1`, and on nonempty data every other filled cell
is strictly positive. -/
theorem levels_coeffs_max_row_one_others_positive
    (d : FacetAlgebra) (df : List Row) (key gfacet : String)
    (hdf : df ≠ []) :
    (¬ max_facet d = "mean" → ¬ gfacet = "mean" →
      calculate_levels_coeffs d df (max_facet d) gfacet = some 1) ∧
    (∀ v : ℚ, ¬ key = max_facet d →
      calculate_levels_coeffs d df key gfacet = some v → 0 < v) := by
  constructor
  · intro hmax hgf
    unfold calculate_levels_coeffs
    rw [if_neg (by tauto), if_pos rfl]
  · intro v hkey hv
    unfold calculate_levels_coeffs at hv
    by_cases hc1 : key = "mean" ∨ gfacet = "mean"
    · rw [if_pos hc1] at hv
      exact Option.noConfusion hv
    · rw [if_neg hc1, if_neg hkey] at hv
      by_cases hc3 : lookupTup d key ≠ []
      · rw [if_pos hc3] at hv
        have heq : inverse_level df (lookupTup d key) (lookupTup d gfacet) = v :=
          Option.some.inj hv
        rw [← heq]
        exact inverse_level_pos df _ _ hdf
      · rw [if_neg hc3] at hv
        exact Option.noConfusion hv

/-- A fully crossed 2×2 `p x i` dataset. -/
def exDfPI : List Row :=
  [fun c => if c = "p" then 1 else if c = "i" then 1 else 0,
   fun c => if c = "p" then 1 else if c = "i" then 2 else 0,
   fun c => if c = "p" then 2 else if c = "i" then 1 else 0,
   fun c => if c = "p" then 2 else if c = "i" then 2 else 0]

/-- The crossed `p x i` FacetAlgebra with its `mean` component. -/
def exAlgPIM : FacetAlgebra :=
  [("p", ["p"]), ("i", ["i"]), ("p x i", ["p", "i"]), ("mean", [])]

/-- Witness for C9 on the concrete crossed dataset. -/
theorem levels_coeffs_max_row_one_others_positive_witness :
    (¬ max_facet exAlgPIM = "mean" → ¬ "i" = "mean" →
      calculate_levels_coeffs exAlgPIM exDfPI (max_facet exAlgPIM) "i" =
        some 1) ∧
    (∀ v : ℚ, ¬ "p" = max_facet exAlgPIM →
      calculate_levels_coeffs exAlgPIM exDfPI "p" "i" = some v → 0 < v) :=
  levels_coeffs_max_row_one_others_positive exAlgPIM exDfPI "p" "i"
    (by simp [exDfPI])

/-! ## C8: confidence intervals -/

/-- `max(self.confidence_intervals, key=lambda x:
len(self.variance_tuple_dictionary[x]))`: first key of the list attaining
the maximal tuple length in the FacetAlgebra. -/
def maxKeyBy (d : FacetAlgebra) : List String → String
  | [] => ""
  | k :: ks =>
      ks.foldl (fun best x =>
        if (lookupTup d x).length > (lookupTup d best).length then x else best) k

/-- The variance dictionary of `calculate_confidence_intervals` when built
from the ANOVA table: the `mean` row is excluded and negative variance
components are clipped to `0` (with a printed warning). -/
def clippedVarianceDict (anova : List (String × ℚ)) : List (String × ℚ) :=
  (anova.filter fun kv => ¬ kv.1 = "mean").map fun kv =>
    (kv.1, if kv.2 < 0 then 0 else kv.2)

/-- `sigma_squared` for one facet: the sum of every other component's
variance times `levels_df.loc[key, var]`. -/
def ci_sigma_squared (variance_dict : List (String × ℚ))
    (lev : String → String → ℚ) (key : String) : ℚ :=
  ((variance_dict.filter fun kv => ¬ kv.1 = key).map fun kv =>
    kv.2 * lev key kv.1).sum

/-- The per-facet interval table: one row per observed level combination of
the facet tuple, `(group key, mean − interval, mean, mean + interval)`
with the group mean of the response column. -/
def ci_table (df : List Row) (tup : List String) (respCol : String)
    (interval : ℚ) : List (List ℚ × ℚ × ℚ × ℚ) :=
  (groupKeys df tup).map fun g =>
    let m := listMean
      ((df.filter fun r => decide (rowKey tup r = g)).map fun r => r respCol)
    (g, m - interval, m, m + interval)

/-- `Design.calculate_confidence_intervals` (ANOVA-table variance path):
build the clipped variance dictionary, drop the single largest facet from
the interval dictionary, and give every remaining component a table whose
half-width is `z_(α/2) · sqrt(σ²)`.  The irrational map
`σ² ↦ z_(α/2) · sqrt(σ²)` (`norm.ppf` and `np.sqrt`) is abstracted as the
parameter `halfWidth`. -/
def calculate_confidence_intervals (d : FacetAlgebra) (df : List Row)
    (anova : List (String × ℚ)) (lev : String → String → ℚ)
    (respCol : String) (halfWidth : ℚ → ℚ) :
    List (String × List (List ℚ × ℚ × ℚ × ℚ)) :=
  let variance_dict := clippedVarianceDict anova
  let keys0 := variance_dict.map Prod.fst
  let mx := maxKeyBy d keys0
  (keys0.filter fun k => ¬ k = mx).map fun key =>
    (key, ci_table df (lookupTup d key) respCol
      (halfWidth (ci_sigma_squared variance_dict lev key)))

/-- The keys of the clipped variance dictionary are the non-`mean` ANOVA
keys. -/
theorem clippedVarianceDict_keys (anova : List (String × ℚ)) :
    (clippedVarianceDict anova).map Prod.fst =
      (anova.filter fun kv => ¬ kv.1 = "mean").map Prod.fst := by
  unfold clippedVarianceDict
  rw [List.map_map]
  rfl

/-- The docstring FacetAlgebra `p x (i:h)` with nested and crossed
interaction components. -/
def exAlgPH : FacetAlgebra :=
  [("p", ["p"]), ("h", ["h"]), ("i:h", ["i", "h"]), ("p x h", ["p", "h"]),
   ("p x (i:h)", ["p", "i", "h"]), ("mean", [])]

/-- An ANOVA variance table over `exAlgPH`. -/
def exAnovaPH : List (String × ℚ) :=
  [("p", 1), ("h", 1), ("i:h", 1), ("p x h", 1), ("p x (i:h)", 1),
   ("mean", 9)]

/-- Counterexample to C8: on the `p x (i:h)` design the two-facet
interaction component `p x h` — not a main effect — receives a confidence
interval table (only the largest component `p x (i:h)` is excluded). -/
theorem ci_table_for_interaction_component_cex :
    "p x h" ∈ (calculate_confidence_intervals exAlgPH [] exAnovaPH exLevPI
        "Response" (fun s => s)).map Prod.fst ∧
    (lookupTup exAlgPH "p x h").length = 2 := by
  constructor
  · decide
  · decide

/-- C8 as amended: `calculate_confidence_intervals` produces an interval
table for exactly the non-`mean` components of the ANOVA table other than
the single largest facet — interactions included — and each table row is
`(level, mean − h, mean, mean + h)` where `h` is the half-width applied to
`σ² = Σ variance × levelCoefficient` over all other components. -/
theorem confidence_intervals_cover_all_nonmean_nonmax
    (d : FacetAlgebra) (df : List Row) (anova : List (String × ℚ))
    (lev : String → String → ℚ) (respCol : String) (hw : ℚ → ℚ)
    (key : String) :
    (key ∈ (calculate_confidence_intervals d df anova lev respCol hw).map
        Prod.fst ↔
      (key ∈ anova.map Prod.fst ∧ ¬ key = "mean" ∧
        ¬ key = maxKeyBy d ((clippedVarianceDict anova).map Prod.fst))) ∧
    (∀ tbl, (key, tbl) ∈
        calculate_confidence_intervals d df anova lev respCol hw →
      ∀ g lo m hi, (g, lo, m, hi) ∈ tbl →
        lo = m - hw (ci_sigma_squared (clippedVarianceDict anova) lev key) ∧
        hi = m + hw (ci_sigma_squared (clippedVarianceDict anova) lev key) ∧
        g ∈ groupKeys df (lookupTup d key)) := by
  constructor
  · unfold calculate_confidence_intervals
    rw [List.map_map]
    have hmf : (Prod.fst ∘ fun key =>
        (key, ci_table df (lookupTup d key) respCol
          (hw (ci_sigma_squared (clippedVarianceDict anova) lev key)))) =
        fun key : String => key := rfl
    rw [hmf, List.map_id']
    rw [List.mem_filter]
    rw [clippedVarianceDict_keys]
    constructor
    · rintro ⟨hmem, hmx⟩
      obtain ⟨kv, hkv, rfl⟩ := List.mem_map.mp hmem
      have h2 := List.mem_filter.mp hkv
      refine ⟨List.mem_map.mpr ⟨kv, h2.1, rfl⟩, by simpa using h2.2, ?_⟩
      simpa using hmx
    · rintro ⟨hmem, hmean, hmx⟩
      obtain ⟨kv, hkv, rfl⟩ := List.mem_map.mp hmem
      refine ⟨List.mem_map.mpr ⟨kv, List.mem_filter.mpr ⟨hkv, by simpa using hmean⟩, rfl⟩, ?_⟩
      simpa using hmx
  · intro tbl htbl
    unfold calculate_confidence_intervals at htbl
    obtain ⟨k2, hk2, heq⟩ := List.mem_map.mp htbl
    have hkey : k2 = key := congrArg Prod.fst heq
    have htbl2 : tbl = ci_table df (lookupTup d key) respCol
        (hw (ci_sigma_squared (clippedVarianceDict anova) lev key)) := by
      have h2 := congrArg Prod.snd heq
      dsimp only at h2
      rw [hkey] at h2
      exact h2.symm
    intro g lo m hi hrow
    rw [htbl2] at hrow
    unfold ci_table at hrow
    obtain ⟨g2, hg2, hreq⟩ := List.mem_map.mp hrow
    obtain ⟨hgeq, hloeq, hmeq, hhieq⟩ :
        g2 = g ∧
        listMean ((df.filter fun r =>
            decide (rowKey (lookupTup d key) r = g2)).map fun r => r respCol) -
          hw (ci_sigma_squared (clippedVarianceDict anova) lev key) = lo ∧
        listMean ((df.filter fun r =>
            decide (rowKey (lookupTup d key) r = g2)).map fun r => r respCol) = m ∧
        listMean ((df.filter fun r =>
            decide (rowKey (lookupTup d key) r = g2)).map fun r => r respCol) +
          hw (ci_sigma_squared (clippedVarianceDict anova) lev key) = hi := by
      have h1 := congrArg Prod.fst hreq
      have h2 := congrArg (fun x => x.2.1) hreq
      have h3 := congrArg (fun x => x.2.2.1) hreq
      have h4 := congrArg (fun x => x.2.2.2) hreq
      exact ⟨h1, h2, h3, h4⟩
    subst hgeq
    refine ⟨by rw [← hloeq, ← hmeq], by rw [← hhieq, ← hmeq], hg2⟩

/-- Witness instantiating the amended C8 on the `p x (i:h)` design: the
interaction `p x h` is among the components receiving a table. -/
theorem confidence_intervals_cover_witness :
    "p x h" ∈ (calculate_confidence_intervals exAlgPH [] exAnovaPH exLevPI
        "Response" id).map Prod.fst :=
  (confidence_intervals_cover_all_nonmean_nonmax exAlgPH [] exAnovaPH
      exLevPI "Response" id "p x h").1.mpr
    ⟨by decide, by decide, by decide⟩

end GeneralizIT
